import Mathlib

/-!
# MetabolicGrimoire: shallow embedding of the hypercube maze engine

This file embeds the two variants of the 4D hypercube maze engine
(`src/hc-2.js`, the extended variant, and the minimal variant) into Lean 4
and proves properties of the embedded code.

Conventions:
* JS numbers holding coordinates are modelled as `Int` (a candidate
  coordinate may be `-1` before the bounds check rejects it).
* The JS `Map` used for visited memory is modelled as an association list
  with JS `Map.set` semantics (overwrite-in-place on an existing key,
  append otherwise); the JS `Set` of the minimal variant likewise.
* `secureRandomInt`'s entropy source is modelled by making each 32-bit
  draw an explicit argument: `secureRandomIntStep max draw` returns
  `some (draw % max)` when the draw passes the rejection test and `none`
  when the draw would be rejected (a redraw in the JS loop).
* `Math.floor(a / b)` on nonnegative integers below 2^53 is exact, so it
  is modelled as `Nat` division; `Math.sqrt` likewise as `Nat.sqrt`.
-/

/-- A 4D coordinate `{x, y, z, w}` as in the JS engine. -/
structure Coord where
  x : Int
  y : Int
  z : Int
  w : Int
deriving DecidableEq, Repr

/-- Extended variant: the value stored in the visited `Map` for a cell:
`{ trap, turn }` (src/hc-2.js line 110-113). -/
structure VisitRecord where
  trap : Bool
  turn : Nat
deriving DecidableEq, Repr

/-- JS `Map.get`: first (unique) binding of the key in the association list. -/
def mapGet (k : String) : List (String × VisitRecord) → Option VisitRecord
  | [] => none
  | (k', v) :: rest => if k' = k then some v else mapGet k rest

/-- JS `Map.has`. -/
def mapHas (k : String) : List (String × VisitRecord) → Bool
  | [] => false
  | (k', _) :: rest => if k' = k then true else mapHas k rest

/-- JS `Map.set`: overwrite the binding in place when the key is present,
append a new binding otherwise (insertion order preserved). -/
def mapSet (k : String) (v : VisitRecord) : List (String × VisitRecord) → List (String × VisitRecord)
  | [] => [(k, v)]
  | (k', v') :: rest => if k' = k then (k, v) :: rest else (k', v') :: mapSet k v rest

/-- `secureRandomInt`'s rejection threshold:
`limit = Math.floor(maxUint32 / max) * max` with `maxUint32 = 0xFFFFFFFF`
(src/hc-2.js lines 12-13). -/
def limit (max : Nat) : Nat := (0xFFFFFFFF / max) * max

/-- One iteration of `secureRandomInt`'s rejection-sampling loop, with the
32-bit draw made explicit: `some (draw % max)` when the draw is accepted,
`none` when the loop would redraw (src/hc-2.js lines 15-19). -/
def secureRandomIntStep (max draw : Nat) : Option Nat :=
  if draw < limit max then some (draw % max) else none

/-- `getCenter`: `mid = Math.floor(size / 2)`, center `(mid,mid,mid,mid)`
(src/hc-2.js lines 35-38). -/
def getCenter (size : Nat) : Coord :=
  ⟨(size / 2 : Nat), (size / 2 : Nat), (size / 2 : Nat), (size / 2 : Nat)⟩

/-- `randomStart`: one coordinate drawn per axis via `secureRandomInt(size)`;
the four 32-bit draws are explicit arguments, and the result is `none` when
any draw would be rejected (src/hc-2.js lines 40-47). -/
def randomStart (size d1 d2 d3 d4 : Nat) : Option Coord := do
  let x ← secureRandomIntStep size d1
  let y ← secureRandomIntStep size d2
  let z ← secureRandomIntStep size d3
  let w ← secureRandomIntStep size d4
  return ⟨(x : Int), (y : Int), (z : Int), (w : Int)⟩

/-- `key(c)`: the canonical string key `"x,y,z,w"` (src/hc-2.js lines 49-51). -/
def key (c : Coord) : String :=
  toString c.x ++ "," ++ toString c.y ++ "," ++ toString c.z ++ "," ++ toString c.w

/-- `isInside(c)`: every component in `[0, size)` (src/hc-2.js lines 53-55). -/
def isInside (size : Nat) (c : Coord) : Bool :=
  (0 ≤ c.x && c.x < (size : Int)) && (0 ≤ c.y && c.y < (size : Int)) &&
  (0 ≤ c.z && c.z < (size : Int)) && (0 ≤ c.w && c.w < (size : Int))

/-- Largest `i ≤ m` with `i * i ≤ n` (always at least 0): a structurally
recursive integer square root used to model `Math.floor ∘ Math.sqrt`. -/
def sqrtGo (n : Nat) : Nat → Nat
  | 0 => 0
  | i + 1 => if (i + 1) * (i + 1) ≤ n then i + 1 else sqrtGo n i

/-- `⌊√n⌋`, the loop bound of the JS trial division (`i <= Math.sqrt(n)`). -/
def intSqrt (n : Nat) : Nat := sqrtGo n n

/-- `isPrime(n)`: trial division, `false` below 2, divisors tried from 2 up to
`Math.sqrt(n)` inclusive (src/hc-2.js lines 57-63; identical in the minimal
variant). `List.range' 2 (intSqrt n.toNat - 1)` is exactly `[2, …, ⌊√n⌋]`. -/
def isPrime (n : Int) : Bool :=
  if n < 2 then false
  else (List.range' 2 (intSqrt n.toNat - 1)).all (fun i => n.toNat % i != 0)

/-- Extended variant `isTrap`: `val = 7x + 11y + 13z + 17w + 19*turn`,
trap iff `val % 97` is prime; JS `%` is truncated remainder, `Int.tmod`
(src/hc-2.js lines 66-75). -/
def isTrap (turn : Nat) (c : Coord) : Bool :=
  isPrime ((c.x * 7 + c.y * 11 + c.z * 13 + c.w * 17 + (turn : Int) * 19).tmod 97)

/-- Minimal variant `isTrap`: the component sum is tested for primality
(src/unnamed/part_000 lines 67-70). -/
def isTrapMin (c : Coord) : Bool :=
  isPrime (c.x + c.y + c.z + c.w)

/-- `isExit(c)`: component-wise equality with the stored exit coordinate
(src/hc-2.js lines 77-84). -/
def isExit (exitC c : Coord) : Bool :=
  c.x == exitC.x && c.y == exitC.y && c.z == exitC.z && c.w == exitC.w

/-- The full mutable state of the extended `Hypercube` engine
(src/hc-2.js lines 26-33). -/
structure HState where
  size : Nat
  turn : Nat
  exit : Coord
  position : Coord
  visited : List (String × VisitRecord)
deriving DecidableEq, Repr

/-- The engine as built by the constructor from a grid size and a starting
position (`turn = 0`, `exit = getCenter size`, empty visited memory). -/
def mkHypercube (size : Nat) (start : Coord) : HState :=
  ⟨size, 0, getCenter size, start, []⟩

/-- The `deltas` lookup table of `move`: the 8 direction tokens mapped to
their unit displacement; any other string misses (src/hc-2.js lines 87-94). -/
def dirDelta (dir : String) : Option Coord :=
  if dir = "xp" then some ⟨1, 0, 0, 0⟩
  else if dir = "xn" then some ⟨-1, 0, 0, 0⟩
  else if dir = "yp" then some ⟨0, 1, 0, 0⟩
  else if dir = "yn" then some ⟨0, -1, 0, 0⟩
  else if dir = "zp" then some ⟨0, 0, 1, 0⟩
  else if dir = "zn" then some ⟨0, 0, -1, 0⟩
  else if dir = "wp" then some ⟨0, 0, 0, 1⟩
  else if dir = "wn" then some ⟨0, 0, 0, -1⟩
  else none

/-- Componentwise addition of a displacement, as the `for (axis in …)` loop
of `move` produces it. -/
def addDelta (p d : Coord) : Coord :=
  ⟨p.x + d.x, p.y + d.y, p.z + d.z, p.w + d.w⟩

/-- The success payload returned by the extended `move`
(src/hc-2.js lines 115-120). -/
structure MoveResult where
  position : Coord
  trap : Bool
  exitFlag : Bool
  turn : Nat
deriving DecidableEq, Repr

/-- Extended `move(dir)` (src/hc-2.js lines 86-121): pure rendering of the
mutating method, returning the result (error string or success payload)
together with the post-call engine state. On either failure the state is
returned untouched, mirroring the early `return`s before any mutation. -/
def move (s : HState) (dir : String) : Except String MoveResult × HState :=
  match dirDelta dir with
  | none => (.error "Invalid direction.", s)
  | some d =>
    let next := addDelta s.position d
    if isInside s.size next then
      let turn' := s.turn + 1
      let trap := isTrap turn' next
      let visited' := mapSet (key next) ⟨trap, turn'⟩ s.visited
      (.ok ⟨next, trap, isExit s.exit next, turn'⟩,
       ⟨s.size, turn', s.exit, next, visited'⟩)
    else
      (.error "You hit the boundary wall.", s)

/-- States of the extended engine reachable from a freshly constructed
`new Hypercube(size)`: a start position produced by `randomStart` (four
accepted 32-bit draws), followed by any sequence of `move` calls with
arbitrary direction strings. -/
inductive Reachable : HState → Prop where
  | start (size d1 d2 d3 d4 : Nat) (p : Coord)
      (h : randomStart size d1 d2 d3 d4 = some p) :
      Reachable (mkHypercube size p)
  | step (s : HState) (dir : String) (h : Reachable s) :
      Reachable (move s dir).2

/-! ## Helper lemmas -/

theorem sqrtGo_eq (n : Nat) : ∀ m : Nat, sqrtGo n m = min m (Nat.sqrt n) := by
  intro m
  induction m with
  | zero => simp [sqrtGo]
  | succ i ih =>
    simp only [sqrtGo]
    by_cases h : (i + 1) * (i + 1) ≤ n
    · rw [if_pos h]
      have : i + 1 ≤ Nat.sqrt n := Nat.le_sqrt.mpr h
      omega
    · rw [if_neg h]
      have : Nat.sqrt n < i + 1 := by
        by_contra hc
        exact h (Nat.le_sqrt.mp (by omega))
      omega

theorem intSqrt_eq (n : Nat) : intSqrt n = Nat.sqrt n := by
  rw [intSqrt, sqrtGo_eq]
  exact Nat.min_eq_right (Nat.sqrt_le_self n)

/-- The embedded trial division agrees with mathematical primality. -/
theorem isPrime_iff (n : Int) : isPrime n = true ↔ 2 ≤ n ∧ Nat.Prime n.toNat := by
  rw [isPrime]
  by_cases h : n < 2
  · simp only [if_pos h]
    constructor
    · intro hf; exact absurd hf (by simp)
    · intro ⟨h2, _⟩; omega
  · simp only [if_neg h, List.all_eq_true, intSqrt_eq]
    have h2 : (2 : Int) ≤ n := by omega
    have h2n : 2 ≤ n.toNat := by omega
    constructor
    · intro hall
      refine ⟨h2, Nat.prime_def_le_sqrt.mpr ⟨h2n, ?_⟩⟩
      intro m hm hms hdvd
      have hmem : m ∈ List.range' 2 (Nat.sqrt n.toNat - 1) := by
        rw [List.mem_range'_1]
        have h1 : 1 ≤ Nat.sqrt n.toNat := Nat.le_sqrt.mpr (by omega)
        omega
      have := hall m hmem
      simp only [ne_eq, bne_iff_ne] at this
      exact this (Nat.dvd_iff_mod_eq_zero.mp hdvd)
    · intro ⟨_, hp⟩ m hmem
      rw [List.mem_range'_1] at hmem
      have hdvd := Nat.prime_def_le_sqrt.mp hp |>.2 m hmem.1 (by omega)
      simp only [ne_eq, bne_iff_ne]
      intro hmod
      exact hdvd (Nat.dvd_of_mod_eq_zero hmod)

/-- `move` on an unrecognized direction token. -/
theorem move_invalid {s : HState} {dir : String} (hd : dirDelta dir = none) :
    move s dir = (.error "Invalid direction.", s) := by
  unfold move; rw [hd]

/-- `move` on a valid token whose candidate coordinate stays inside. -/
theorem move_commit {s : HState} {dir : String} {d : Coord}
    (hd : dirDelta dir = some d)
    (hin : isInside s.size (addDelta s.position d) = true) :
    move s dir =
      (.ok ⟨addDelta s.position d, isTrap (s.turn + 1) (addDelta s.position d),
            isExit s.exit (addDelta s.position d), s.turn + 1⟩,
       ⟨s.size, s.turn + 1, s.exit, addDelta s.position d,
        mapSet (key (addDelta s.position d))
          ⟨isTrap (s.turn + 1) (addDelta s.position d), s.turn + 1⟩ s.visited⟩) := by
  unfold move; rw [hd]; simp only [hin, if_true]

/-- `move` on a valid token whose candidate coordinate leaves the grid. -/
theorem move_wall {s : HState} {dir : String} {d : Coord}
    (hd : dirDelta dir = some d)
    (hin : isInside s.size (addDelta s.position d) = false) :
    move s dir = (.error "You hit the boundary wall.", s) := by
  unfold move; rw [hd]; simp only [hin, Bool.false_eq_true, if_false]

/-- Inversion for a successful `move`: the result and post-state components. -/
theorem move_ok_elim {s : HState} {dir : String} {r : MoveResult}
    (h : (move s dir).1 = .ok r) :
    ∃ d, dirDelta dir = some d ∧
      r.position = addDelta s.position d ∧
      isInside s.size r.position = true ∧
      r.turn = s.turn + 1 ∧
      r.trap = isTrap (s.turn + 1) r.position ∧
      r.exitFlag = isExit s.exit r.position ∧
      (move s dir).2 = ⟨s.size, s.turn + 1, s.exit, r.position,
        mapSet (key r.position) ⟨r.trap, s.turn + 1⟩ s.visited⟩ := by
  cases hd : dirDelta dir with
  | none => rw [move_invalid hd] at h; exact absurd h (by simp)
  | some d =>
    cases hin : isInside s.size (addDelta s.position d) with
    | false => rw [move_wall hd hin] at h; exact absurd h (by simp)
    | true =>
      rw [move_commit hd hin] at h ⊢
      cases h
      exact ⟨d, rfl, rfl, hin, rfl, rfl, rfl, rfl⟩

/-- A failing `move` returns the state untouched. -/
theorem move_error_elim {s : HState} {dir : String} {e : String}
    (h : (move s dir).1 = .error e) : (move s dir).2 = s := by
  cases hd : dirDelta dir with
  | none => rw [move_invalid hd]
  | some d =>
    cases hin : isInside s.size (addDelta s.position d) with
    | false => rw [move_wall hd hin]
    | true => rw [move_commit hd hin] at h; exact absurd h (by simp)

/-- Every `move` call either fails (state unchanged) or succeeds. -/
theorem move_fst_cases (s : HState) (dir : String) :
    (∃ e, (move s dir).1 = .error e) ∨ (∃ r, (move s dir).1 = .ok r) := by
  cases h : (move s dir).1 with
  | error e => exact .inl ⟨e, rfl⟩
  | ok r => exact .inr ⟨r, rfl⟩

theorem mapGet_mapSet_self (k : String) (v : VisitRecord) (l : List (String × VisitRecord)) :
    mapGet k (mapSet k v l) = some v := by
  induction l with
  | nil => simp [mapSet, mapGet]
  | cons hd tl ih =>
    obtain ⟨k', v'⟩ := hd
    by_cases h : k' = k
    · simp [mapSet, mapGet, h]
    · simp [mapSet, mapGet, h, ih]

theorem mapGet_mapSet_ne (k k' : String) (v : VisitRecord) (l : List (String × VisitRecord))
    (h : k' ≠ k) : mapGet k' (mapSet k v l) = mapGet k' l := by
  induction l with
  | nil =>
    simp only [mapSet, mapGet]
    rw [if_neg (fun hh => h hh.symm)]
  | cons hd tl ih =>
    obtain ⟨k'', v''⟩ := hd
    by_cases hk : k'' = k
    · subst hk
      simp only [mapSet, if_pos rfl, mapGet]
      rw [if_neg (fun hh => h hh.symm), if_neg (fun hh => h hh.symm)]
    · simp only [mapSet, if_neg hk, mapGet]
      by_cases hk' : k'' = k'
      · rw [if_pos hk', if_pos hk']
      · rw [if_neg hk', if_neg hk', ih]

theorem mapHas_eq_isSome (k : String) (l : List (String × VisitRecord)) :
    mapHas k l = (mapGet k l).isSome := by
  induction l with
  | nil => simp [mapHas, mapGet]
  | cons hd tl ih =>
    obtain ⟨k', v'⟩ := hd
    by_cases h : k' = k
    · simp [mapHas, mapGet, h]
    · simp [mapHas, mapGet, h, ih]

theorem mapHas_mapSet_mono (k k' : String) (v : VisitRecord) (l : List (String × VisitRecord))
    (h : mapHas k' l = true) : mapHas k' (mapSet k v l) = true := by
  by_cases hk : k' = k
  · subst hk
    rw [mapHas_eq_isSome, mapGet_mapSet_self]
    rfl
  · rw [mapHas_eq_isSome, mapGet_mapSet_ne k k' v l hk, ← mapHas_eq_isSome]
    exact h

theorem mapSet_length_le (k : String) (v : VisitRecord) (l : List (String × VisitRecord)) :
    (mapSet k v l).length ≤ l.length + 1 := by
  induction l with
  | nil => simp [mapSet]
  | cons hd tl ih =>
    obtain ⟨k', v'⟩ := hd
    by_cases h : k' = k
    · simp [mapSet, h]
    · simp only [mapSet, if_neg h, List.length_cons]
      omega

theorem mapSet_keys_mem (a k : String) (v : VisitRecord) (l : List (String × VisitRecord)) :
    a ∈ (mapSet k v l).map Prod.fst ↔ a = k ∨ a ∈ l.map Prod.fst := by
  induction l with
  | nil => simp [mapSet]
  | cons hd tl ih =>
    obtain ⟨k', v'⟩ := hd
    by_cases h : k' = k
    · subst h
      simp [mapSet]
    · simp only [mapSet, if_neg h, List.map_cons, List.mem_cons, ih]
      tauto

theorem mapSet_keys_nodup (k : String) (v : VisitRecord) (l : List (String × VisitRecord))
    (h : (l.map Prod.fst).Nodup) : ((mapSet k v l).map Prod.fst).Nodup := by
  induction l with
  | nil => simp [mapSet]
  | cons hd tl ih =>
    obtain ⟨k', v'⟩ := hd
    simp only [List.map_cons, List.nodup_cons] at h
    by_cases hk : k' = k
    · subst hk
      have e : mapSet k' v ((k', v') :: tl) = (k', v) :: tl := by simp [mapSet]
      rw [e]
      simp only [List.map_cons, List.nodup_cons]
      exact h
    · simp only [mapSet, if_neg hk, List.map_cons, List.nodup_cons]
      refine ⟨?_, ih h.2⟩
      rw [mapSet_keys_mem]
      push_neg
      exact ⟨hk, h.1⟩

/-- An accepted draw of `secureRandomInt` always lands in `[0, max)`. -/
theorem secureRandomIntStep_lt {max d v : Nat} (h : secureRandomIntStep max d = some v) :
    v < max := by
  unfold secureRandomIntStep at h
  by_cases hlt : d < limit max
  · rw [if_pos hlt] at h
    cases h
    have hmax : 0 < max := by
      by_contra h0
      have hz : max = 0 := by omega
      subst hz
      simp [limit] at hlt
    exact Nat.mod_lt _ hmax
  · rw [if_neg hlt] at h
    exact absurd h (by simp)

/-- A start position produced by `randomStart` lies inside the grid. -/
theorem randomStart_inside {size d1 d2 d3 d4 : Nat} {p : Coord}
    (h : randomStart size d1 d2 d3 d4 = some p) : isInside size p = true := by
  simp only [randomStart, Option.bind_eq_bind, Option.bind_eq_some, Option.pure_def,
    Option.some.injEq] at h
  obtain ⟨x, hx, y, hy, z, hz, w, hw, hp⟩ := h
  have hx' := secureRandomIntStep_lt hx
  have hy' := secureRandomIntStep_lt hy
  have hz' := secureRandomIntStep_lt hz
  have hw' := secureRandomIntStep_lt hw
  subst hp
  simp only [isInside, Bool.and_eq_true, decide_eq_true_eq]
  omega

/-- Unpacking the boolean bounds check into propositional bounds. -/
theorem isInside_elim {size : Nat} {c : Coord} (h : isInside size c = true) :
    0 ≤ c.x ∧ c.x < size ∧ 0 ≤ c.y ∧ c.y < size ∧
    0 ≤ c.z ∧ c.z < size ∧ 0 ≤ c.w ∧ c.w < size := by
  simp only [isInside, Bool.and_eq_true, decide_eq_true_eq] at h
  omega

/-- The embedded trial division computes `Nat.Prime` on casts of naturals. -/
theorem isPrime_natCast (n : Nat) : isPrime (n : Int) = decide (Nat.Prime n) := by
  by_cases hp : Nat.Prime n
  · rw [decide_eq_true hp]
    exact (isPrime_iff _).mpr ⟨by exact_mod_cast hp.two_le, by rwa [Int.toNat_natCast]⟩
  · rw [decide_eq_false hp, Bool.eq_false_iff]
    intro h
    obtain ⟨h2, hpr⟩ := (isPrime_iff _).mp h
    rw [Int.toNat_natCast] at hpr
    exact hp hpr

/-- The extended trap predicate, restated over naturals for coordinates that
passed the bounds check. -/
theorem isTrap_eq_prime (turn : Nat) (c : Coord)
    (hx : 0 ≤ c.x) (hy : 0 ≤ c.y) (hz : 0 ≤ c.z) (hw : 0 ≤ c.w) :
    isTrap turn c = decide (Nat.Prime ((7 * c.x.toNat + 11 * c.y.toNat +
      13 * c.z.toNat + 17 * c.w.toNat + 19 * turn) % 97)) := by
  unfold isTrap
  have hval : c.x * 7 + c.y * 11 + c.z * 13 + c.w * 17 + (turn : Int) * 19 =
      ((7 * c.x.toNat + 11 * c.y.toNat + 13 * c.z.toNat + 17 * c.w.toNat + 19 * turn : Nat) : Int) := by
    push_cast
    omega
  rw [hval, show ((97 : Int)) = ((97 : Nat) : Int) by norm_cast, ← Int.ofNat_tmod,
    isPrime_natCast]

/-! ## Slice renderer -/

/-- The cell markers of `renderSlice`'s legend: player `P`, exit `E`,
known trap `X`, known safe `.`, unvisited `?`. -/
inductive Marker where
  | player
  | exitMark
  | trapMark
  | safeMark
  | unknown
deriving DecidableEq, Repr

/-- The per-cell classification of `renderSlice` (src/hc-2.js lines 139-155):
for a cell `(x, y, z)` of the 3D slice at `wLevel = position.w`, in order:
player position, exit, visited (`visited.has` followed by `.get(...).trap`,
modelled as one lookup), unknown. A pure function of the engine state: the
JS method only reads `position`, `exit` and `visited`. -/
def cellMarker (s : HState) (x y z : Int) : Marker :=
  let wLevel := s.position.w
  let coord : Coord := ⟨x, y, z, wLevel⟩
  if s.position.x = x ∧ s.position.y = y ∧ s.position.z = z ∧ s.position.w = wLevel then
    .player
  else if isExit s.exit coord then
    .exitMark
  else
    match mapGet (key coord) s.visited with
    | some v => if v.trap then .trapMark else .safeMark
    | none => .unknown

/-- Modelled from the spec's words (§4.4 classification priority), for
comparison with `cellMarker`: player's exact coordinate, else the fixed
center, else the visited record's trap flag, else unknown. -/
def specMarker (s : HState) (x y z : Int) : Marker :=
  let coord : Coord := ⟨x, y, z, s.position.w⟩
  if coord = s.position then .player
  else if coord = getCenter s.size then .exitMark
  else
    match mapGet (key coord) s.visited with
    | some v => if v.trap then .trapMark else .safeMark
    | none => .unknown

deriving instance DecidableEq for Except

/-- Componentwise characterization of coordinate equality (the Coordinate
Model's `equals`). -/
theorem coordEq_iff (a b : Coord) :
    a = b ↔ a.x = b.x ∧ a.y = b.y ∧ a.z = b.z ∧ a.w = b.w := by
  constructor
  · intro h
    subst h
    exact ⟨rfl, rfl, rfl, rfl⟩
  · obtain ⟨a1, a2, a3, a4⟩ := a
    obtain ⟨b1, b2, b3, b4⟩ := b
    rintro ⟨h1, h2, h3, h4⟩
    simp_all

/-! ## Claims -/

/-- C1 (counterexample): the claim that a visited key's recorded trap status
is never overwritten with a different trap value fails on the code: starting
the extended engine at (0,0,0,0) and playing xp, xn, xp, xn, xp, the cell
(1,0,0,0) is first recorded with trap = false (turn 1) but after re-entering
it at turn 5 its record has been overwritten to trap = true. -/
theorem visited_trap_overwritten :
    mapGet (key ⟨1, 0, 0, 0⟩) ((move (mkHypercube 4 ⟨0, 0, 0, 0⟩) "xp").2).visited =
      some ⟨false, 1⟩ ∧
    mapGet (key ⟨1, 0, 0, 0⟩)
      (move (move (move (move (move (mkHypercube 4 ⟨0, 0, 0, 0⟩) "xp").2 "xn").2 "xp").2
        "xn").2 "xp").2.visited = some ⟨true, 5⟩ := by
  refine ⟨by decide, by decide⟩

/-- C1 (amended): for every key in the visited memory, the key is never
removed by any later operation; a successful move upserts the entered cell's
record with the latest trap/turn observation — so re-entering an
already-visited cell overwrites the recorded trap flag with the current
evaluation — and leaves the records of all other keys unchanged. -/
theorem visited_upsert_semantics (s : HState) (dir : String) :
    (∀ k, mapHas k s.visited = true → mapHas k ((move s dir).2).visited = true) ∧
    (∀ r, (move s dir).1 = .ok r →
      mapGet (key r.position) ((move s dir).2).visited = some ⟨r.trap, s.turn + 1⟩ ∧
      ∀ k, k ≠ key r.position →
        mapGet k ((move s dir).2).visited = mapGet k s.visited) := by
  constructor
  · intro k hk
    rcases move_fst_cases s dir with ⟨e, he⟩ | ⟨r, hr⟩
    · rw [move_error_elim he]
      exact hk
    · obtain ⟨d, -, -, -, -, -, -, hsnd⟩ := move_ok_elim hr
      rw [hsnd]
      exact mapHas_mapSet_mono _ _ _ _ hk
  · intro r hr
    obtain ⟨d, -, -, -, -, -, -, hsnd⟩ := move_ok_elim hr
    rw [hsnd]
    exact ⟨mapGet_mapSet_self _ _ _, fun k hk => mapGet_mapSet_ne _ _ _ _ hk⟩

/-- Witness for C1 (amended) at a concrete move. -/
theorem visited_upsert_semantics_witness :
    (move (mkHypercube 4 ⟨0, 0, 0, 0⟩) "xp").1 =
      Except.ok ⟨⟨1, 0, 0, 0⟩, false, false, 1⟩ ∧
    mapGet (key (⟨⟨1, 0, 0, 0⟩, false, false, 1⟩ : MoveResult).position)
      ((move (mkHypercube 4 ⟨0, 0, 0, 0⟩) "xp").2).visited =
      some ⟨(⟨⟨1, 0, 0, 0⟩, false, false, 1⟩ : MoveResult).trap,
            (mkHypercube 4 ⟨0, 0, 0, 0⟩).turn + 1⟩ :=
  ⟨by decide,
   ((visited_upsert_semantics (mkHypercube 4 ⟨0, 0, 0, 0⟩) "xp").2 _ (by decide)).1⟩

/-- C2 (counterexample): the claim that the rejection threshold is
`floor(2^32 / max) * max` and covers at least `2^32 - max + 1` draws fails
at max = 2: the code computes `floor((2^32 - 1)/max) * max`, which for
max = 2 is 2^32 - 2, differing from `floor(2^32/2)*2 = 2^32` and covering
fewer than `2^32 - 2 + 1` draws. -/
theorem limit_formula_counterexample :
    limit 2 ≠ 2 ^ 32 / 2 * 2 ∧ limit 2 < 2 ^ 32 - 2 + 1 := by
  refine ⟨by decide, by decide⟩

/-- C2 (amended): for every max > 0 the random source computes the rejection
threshold as `limit = floor((2^32 - 1) / max) * max`, returns `draw % max`
exactly when the 32-bit draw is below the threshold and redraws otherwise,
and the threshold covers at least `2^32 - max` of the `2^32`-value draw
space. -/
theorem secureRandomInt_rejection (max : Nat) (hmax : 0 < max) :
    limit max = (2 ^ 32 - 1) / max * max ∧
    (∀ d, d < limit max → secureRandomIntStep max d = some (d % max)) ∧
    (∀ d, limit max ≤ d → secureRandomIntStep max d = none) ∧
    2 ^ 32 - max ≤ limit max := by
  have hlim : limit max = (2 ^ 32 - 1) / max * max := by
    norm_num [limit]
  refine ⟨hlim, ?_, ?_, ?_⟩
  · intro d hd
    unfold secureRandomIntStep
    rw [if_pos hd]
  · intro d hd
    unfold secureRandomIntStep
    rw [if_neg (by omega)]
  · have he := Nat.div_add_mod' (2 ^ 32 - 1) max
    have hm : (2 ^ 32 - 1) % max < max := Nat.mod_lt _ hmax
    rw [hlim]
    omega

/-- Witness for C2 (amended) at max = 7, draw = 10. -/
theorem secureRandomInt_rejection_witness :
    0 < 7 ∧ limit 7 = (2 ^ 32 - 1) / 7 * 7 ∧ 2 ^ 32 - 7 ≤ limit 7 ∧
    secureRandomIntStep 7 10 = some (10 % 7) := by
  obtain ⟨h1, h2, h3, h4⟩ := secureRandomInt_rejection 7 (by decide)
  exact ⟨by decide, h1, h4, h2 10 (by decide)⟩

/-- C3: in the extended variant every successful move increments the turn
counter before the trap predicate is evaluated, and the trap flag returned
for the move equals the primality of
`(7x + 11y + 13z + 17w + 19*turn) mod 97`, where (x,y,z,w) is the new
position and turn is the post-increment turn value. -/
theorem move_trap_formula (s : HState) (dir : String) (r : MoveResult)
    (h : (move s dir).1 = .ok r) :
    r.turn = s.turn + 1 ∧ ((move s dir).2).turn = s.turn + 1 ∧
    r.trap = decide (Nat.Prime ((7 * r.position.x.toNat + 11 * r.position.y.toNat +
      13 * r.position.z.toNat + 17 * r.position.w.toNat + 19 * (s.turn + 1)) % 97)) := by
  obtain ⟨d, -, -, hin, hturn, htrap, -, hsnd⟩ := move_ok_elim h
  obtain ⟨hx, -, hy, -, hz, -, hw, -⟩ := isInside_elim hin
  refine ⟨hturn, by rw [hsnd], ?_⟩
  rw [htrap, isTrap_eq_prime (s.turn + 1) r.position hx hy hz hw]

/-- Witness for C3 at the move xp from (0,0,0,0), turn 0: the new turn is 1
and the trap flag matches the formula at (1,0,0,0), turn 1. -/
theorem move_trap_formula_witness :
    ((move (mkHypercube 4 ⟨0, 0, 0, 0⟩) "xp").1 =
      Except.ok ⟨⟨1, 0, 0, 0⟩, false, false, 1⟩) ∧
    ((⟨⟨1, 0, 0, 0⟩, false, false, 1⟩ : MoveResult).turn =
      (mkHypercube 4 ⟨0, 0, 0, 0⟩).turn + 1 ∧
     ((move (mkHypercube 4 ⟨0, 0, 0, 0⟩) "xp").2).turn =
      (mkHypercube 4 ⟨0, 0, 0, 0⟩).turn + 1 ∧
     (⟨⟨1, 0, 0, 0⟩, false, false, 1⟩ : MoveResult).trap = decide (Nat.Prime
       ((7 * (⟨⟨1, 0, 0, 0⟩, false, false, 1⟩ : MoveResult).position.x.toNat +
         11 * (⟨⟨1, 0, 0, 0⟩, false, false, 1⟩ : MoveResult).position.y.toNat +
         13 * (⟨⟨1, 0, 0, 0⟩, false, false, 1⟩ : MoveResult).position.z.toNat +
         17 * (⟨⟨1, 0, 0, 0⟩, false, false, 1⟩ : MoveResult).position.w.toNat +
         19 * ((mkHypercube 4 ⟨0, 0, 0, 0⟩).turn + 1)) % 97))) :=
  ⟨by decide,
   move_trap_formula (mkHypercube 4 ⟨0, 0, 0, 0⟩) "xp" ⟨⟨1, 0, 0, 0⟩, false, false, 1⟩
     (by decide)⟩

/-- C4: for every engine state and every direction argument, a failing move
(invalid token or out-of-bounds candidate) returns an error and leaves the
whole state — position, turn, visited memory — exactly unchanged, and a
successful move produces exactly the state with the one new position, the
turn incremented once, and a single visited-memory upsert (size and exit
untouched). -/
theorem move_atomicity (s : HState) (dir : String) :
    (∀ e, (move s dir).1 = .error e → (move s dir).2 = s) ∧
    (∀ r, (move s dir).1 = .ok r →
      (move s dir).2 = ⟨s.size, s.turn + 1, s.exit, r.position,
        mapSet (key r.position) ⟨r.trap, s.turn + 1⟩ s.visited⟩) := by
  constructor
  · intro e he
    exact move_error_elim he
  · intro r hr
    obtain ⟨d, -, -, -, -, -, -, hsnd⟩ := move_ok_elim hr
    exact hsnd

/-- Witness for C4 at an invalid direction token. -/
theorem move_atomicity_witness :
    (move (mkHypercube 4 ⟨0, 0, 0, 0⟩) "foo").1 = Except.error "Invalid direction." ∧
    (move (mkHypercube 4 ⟨0, 0, 0, 0⟩) "foo").2 = mkHypercube 4 ⟨0, 0, 0, 0⟩ :=
  ⟨by decide,
   (move_atomicity (mkHypercube 4 ⟨0, 0, 0, 0⟩) "foo").1 "Invalid direction." (by decide)⟩

/-- C5: for every reachable engine state (initial random start followed by
any sequence of move calls with any arguments), every component of the
player position lies in [0, size). -/
theorem reachable_position_inside (s : HState) (h : Reachable s) :
    isInside s.size s.position = true := by
  induction h with
  | start size d1 d2 d3 d4 p hp => exact randomStart_inside hp
  | step s dir hs ih =>
    rcases move_fst_cases s dir with ⟨e, he⟩ | ⟨r, hr⟩
    · rw [move_error_elim he]
      exact ih
    · obtain ⟨d, -, -, hin, -, -, -, hsnd⟩ := move_ok_elim hr
      rw [hsnd]
      exact hin

/-- Witness for C5 at a freshly constructed size-4 engine. -/
theorem reachable_position_inside_witness :
    isInside (mkHypercube 4 ⟨0, 0, 0, 0⟩).size (mkHypercube 4 ⟨0, 0, 0, 0⟩).position = true :=
  reachable_position_inside _ (Reachable.start 4 0 0 0 0 ⟨0, 0, 0, 0⟩ (by decide))

/-- C6: every successful move changes exactly one of the four position
components, by exactly +1 or -1 according to the direction token, and leaves
the other three unchanged. -/
theorem move_single_axis (s : HState) (dir : String) (r : MoveResult)
    (h : (move s dir).1 = .ok r) :
    (dir = "xp" ∧ r.position = ⟨s.position.x + 1, s.position.y, s.position.z, s.position.w⟩) ∨
    (dir = "xn" ∧ r.position = ⟨s.position.x - 1, s.position.y, s.position.z, s.position.w⟩) ∨
    (dir = "yp" ∧ r.position = ⟨s.position.x, s.position.y + 1, s.position.z, s.position.w⟩) ∨
    (dir = "yn" ∧ r.position = ⟨s.position.x, s.position.y - 1, s.position.z, s.position.w⟩) ∨
    (dir = "zp" ∧ r.position = ⟨s.position.x, s.position.y, s.position.z + 1, s.position.w⟩) ∨
    (dir = "zn" ∧ r.position = ⟨s.position.x, s.position.y, s.position.z - 1, s.position.w⟩) ∨
    (dir = "wp" ∧ r.position = ⟨s.position.x, s.position.y, s.position.z, s.position.w + 1⟩) ∨
    (dir = "wn" ∧ r.position = ⟨s.position.x, s.position.y, s.position.z, s.position.w - 1⟩) := by
  obtain ⟨d, hd, hpos, -⟩ := move_ok_elim h
  unfold dirDelta at hd
  split_ifs at hd with h1 h2 h3 h4 h5 h6 h7 h8
  · cases hd
    exact .inl ⟨h1, by rw [hpos]; simp [addDelta, Coord.mk.injEq] <;> omega⟩
  · cases hd
    exact .inr (.inl ⟨h2, by rw [hpos]; simp [addDelta, Coord.mk.injEq] <;> omega⟩)
  · cases hd
    exact .inr (.inr (.inl ⟨h3, by rw [hpos]; simp [addDelta, Coord.mk.injEq] <;> omega⟩))
  · cases hd
    exact .inr (.inr (.inr (.inl ⟨h4, by
      rw [hpos]; simp [addDelta, Coord.mk.injEq] <;> omega⟩)))
  · cases hd
    exact .inr (.inr (.inr (.inr (.inl ⟨h5, by
      rw [hpos]; simp [addDelta, Coord.mk.injEq] <;> omega⟩))))
  · cases hd
    exact .inr (.inr (.inr (.inr (.inr (.inl ⟨h6, by
      rw [hpos]; simp [addDelta, Coord.mk.injEq] <;> omega⟩)))))
  · cases hd
    exact .inr (.inr (.inr (.inr (.inr (.inr (.inl ⟨h7, by
      rw [hpos]; simp [addDelta, Coord.mk.injEq] <;> omega⟩))))))
  · cases hd
    exact .inr (.inr (.inr (.inr (.inr (.inr (.inr ⟨h8, by
      rw [hpos]; simp [addDelta, Coord.mk.injEq] <;> omega⟩))))))

/-- Witness for C6 at the move yp from (0,0,0,0): only the y component
changes, by +1. -/
theorem move_single_axis_witness :
    (⟨⟨0, 1, 0, 0⟩, false, false, 1⟩ : MoveResult).position =
      ⟨(mkHypercube 4 ⟨0, 0, 0, 0⟩).position.x, (mkHypercube 4 ⟨0, 0, 0, 0⟩).position.y + 1,
       (mkHypercube 4 ⟨0, 0, 0, 0⟩).position.z, (mkHypercube 4 ⟨0, 0, 0, 0⟩).position.w⟩ := by
  rcases move_single_axis (mkHypercube 4 ⟨0, 0, 0, 0⟩) "yp" ⟨⟨0, 1, 0, 0⟩, false, false, 1⟩
      (by decide) with
    ⟨h, -⟩ | ⟨h, -⟩ | ⟨-, h⟩ | ⟨h, -⟩ | ⟨h, -⟩ | ⟨h, -⟩ | ⟨h, -⟩ | ⟨h, -⟩
  · exact absurd h (by decide)
  · exact absurd h (by decide)
  · exact h
  · exact absurd h (by decide)
  · exact absurd h (by decide)
  · exact absurd h (by decide)
  · exact absurd h (by decide)
  · exact absurd h (by decide)

/-- C7: the slice renderer classifies every cell (x,y,z) at the player's
current w-level by the spec's priority — player marker at the player's exact
coordinate, else exit marker at the fixed center (even when unvisited), else
trap/safe marker by the recorded trap flag of a visited cell, else the
unknown marker — and is a pure function of the engine state (the embedding
`cellMarker` reads the state and returns a marker, mutating nothing). -/
theorem renderSlice_classification (s : HState) (x y z : Int)
    (hexit : s.exit = getCenter s.size) :
    cellMarker s x y z = specMarker s x y z := by
  simp only [cellMarker, specMarker]
  have hp : (s.position.x = x ∧ s.position.y = y ∧ s.position.z = z ∧ True) ↔
      (⟨x, y, z, s.position.w⟩ : Coord) = s.position := by
    rw [coordEq_iff]
    dsimp only
    constructor
    · rintro ⟨h1, h2, h3, -⟩
      exact ⟨h1.symm, h2.symm, h3.symm, rfl⟩
    · rintro ⟨h1, h2, h3, -⟩
      exact ⟨h1.symm, h2.symm, h3.symm, trivial⟩
  have he : (isExit s.exit ⟨x, y, z, s.position.w⟩ = true) ↔
      (⟨x, y, z, s.position.w⟩ : Coord) = getCenter s.size := by
    rw [hexit, coordEq_iff]
    simp only [isExit, Bool.and_eq_true, beq_iff_eq]
    tauto
  by_cases h1 : (⟨x, y, z, s.position.w⟩ : Coord) = s.position
  · rw [if_pos (hp.mpr h1), if_pos h1]
  · rw [if_neg (fun hh => h1 (hp.mp hh)), if_neg h1]
    by_cases h2 : (⟨x, y, z, s.position.w⟩ : Coord) = getCenter s.size
    · rw [if_pos (he.mpr h2), if_pos h2]
    · rw [if_neg (fun hh => h2 (he.mp hh)), if_neg h2]

/-- Witness for C7 at a freshly constructed size-4 engine and the center
cell of its slice. -/
theorem renderSlice_classification_witness :
    (mkHypercube 4 ⟨0, 0, 0, 0⟩).exit = getCenter (mkHypercube 4 ⟨0, 0, 0, 0⟩).size ∧
    cellMarker (mkHypercube 4 ⟨0, 0, 0, 0⟩) 2 2 2 =
      specMarker (mkHypercube 4 ⟨0, 0, 0, 0⟩) 2 2 2 :=
  ⟨by decide, renderSlice_classification (mkHypercube 4 ⟨0, 0, 0, 0⟩) 2 2 2 (by decide)⟩

/-- C8: in the extended variant the trap and exit flags are not mutually
exclusive: on the size-4 grid with exit (2,2,2,2), the move wp from
(2,2,2,1) at turn 1 lands on the exit at turn 2, where
`7*2 + 11*2 + 13*2 + 17*2 + 19*2 = 134` and `134 mod 97 = 37` is prime, so
the result carries trap = true and exit = true together. -/
theorem trap_and_exit_together :
    (move ⟨4, 1, getCenter 4, ⟨2, 2, 2, 1⟩, []⟩ "wp").1 =
      Except.ok ⟨⟨2, 2, 2, 2⟩, true, true, 2⟩ ∧
    (7 * 2 + 11 * 2 + 13 * 2 + 17 * 2 + 19 * 2) % 97 = 37 ∧ Nat.Prime 37 := by
  refine ⟨by decide, by norm_num, by norm_num⟩

/-- C9: in the minimal variant, for every grid size N ≥ 1 the exit (center)
cell is never a trap: its component sum is 4·⌊N/2⌋, which is either 0 or a
composite multiple of 4, so the static trap predicate rejects it. -/
theorem center_never_trap_min (N : Nat) (h : 1 ≤ N) :
    isTrapMin (getCenter N) = false := by
  unfold isTrapMin getCenter
  have hsum : ((N / 2 : Nat) : Int) + (N / 2 : Nat) + (N / 2 : Nat) + (N / 2 : Nat) =
      ((4 * (N / 2) : Nat) : Int) := by
    push_cast
    ring
  dsimp only
  rw [hsum, isPrime_natCast]
  rw [decide_eq_false_iff_not]
  intro hp
  rcases Nat.eq_zero_or_pos (N / 2) with h0 | hpos
  · rw [h0] at hp
    exact Nat.not_prime_zero (by simpa using hp)
  · have h4 : 2 ∣ 4 * (N / 2) := ⟨2 * (N / 2), by ring⟩
    rcases Nat.Prime.eq_one_or_self_of_dvd hp 2 h4 with h1 | h2
    · omega
    · omega

/-- Witness for C9 at N = 5 (the minimal variant's grid size). -/
theorem center_never_trap_min_witness :
    1 ≤ 5 ∧ isTrapMin (getCenter 5) = false :=
  ⟨by decide, center_never_trap_min 5 (by decide)⟩

/-- C10: in the extended variant, after any sequence of move calls from a
freshly constructed engine, the visited memory's keys are distinct and their
number is at most the turn counter: each successful move increments turn by
one and upserts at most one key, and failing moves change neither. -/
theorem visited_size_le_turn (s : HState) (h : Reachable s) :
    (s.visited.map Prod.fst).Nodup ∧ s.visited.length ≤ s.turn := by
  induction h with
  | start size d1 d2 d3 d4 p hp => exact ⟨by simp [mkHypercube], by simp [mkHypercube]⟩
  | step s dir hs ih =>
    rcases move_fst_cases s dir with ⟨e, he⟩ | ⟨r, hr⟩
    · rw [move_error_elim he]
      exact ih
    · obtain ⟨d, -, -, -, -, -, -, hsnd⟩ := move_ok_elim hr
      rw [hsnd]
      refine ⟨mapSet_keys_nodup _ _ _ ih.1, ?_⟩
      have hle := mapSet_length_le (key r.position) ⟨r.trap, s.turn + 1⟩ s.visited
      have := ih.2
      simp only
      omega

/-- Witness for C10 after one successful move from a fresh engine. -/
theorem visited_size_le_turn_witness :
    (((move (mkHypercube 4 ⟨0, 0, 0, 0⟩) "xp").2).visited.map Prod.fst).Nodup ∧
    ((move (mkHypercube 4 ⟨0, 0, 0, 0⟩) "xp").2).visited.length ≤
      ((move (mkHypercube 4 ⟨0, 0, 0, 0⟩) "xp").2).turn :=
  visited_size_le_turn _
    (Reachable.step _ "xp" (Reachable.start 4 0 0 0 0 ⟨0, 0, 0, 0⟩ (by decide)))
